import Mathlib

/-
Shallow embedding of the dolfin-adjoint tape core, verified against the
repository sources:

  * `matrix_free.py`      — the matrix-free Krylov adapter
    (`MatrixFree`, `AdjointPETScKrylovSolver.solve`, `diag_assembly_cb`,
    the nonlinear-dependency `derivative_action` callback);
  * `functional.py`       — `FinalFunctional` and `TimeFunctional`;
  * `dolfin_adjoint/function.py` — `dolfin_adjoint_assign`,
    linear-combination extraction, `LinComRHS`;
  * `timestepping/python/timestepping/caches.py` — `AssemblyCache`.

External collaborators (dolfin/UFL assembly, PETSc Krylov iteration, LU
factorisations) are abstracted as explicit function parameters: the code
under verification only hands them data and consumes their results.
Machine vectors are modelled as lists of integers — every scalar any
claim exercises is integer-valued, and exact arithmetic over ℤ stands in
for the exact float arithmetic of those runs; the module-level
mutable registries of the source (`solving.adj_variables`,
`solving.adjointer`, the expression-parameter dictionary) become explicit
state that each embedded operation threads through.  Definitions whose
Python source is absent from the snapshot (`solving.py`, `expressions.py`,
`utils.py`) are reconstructed from the specification and marked
`Modelled from the spec` in their doc comments.
-/

set_option linter.unusedVariables false
set_option synthInstance.maxSize 512

deriving instance DecidableEq for Except

/-- A degree-of-freedom vector (PETSc vector / dolfin Function value). -/
abbrev Vec := List ℤ

/-- Scalar multiple of a vector, `w * v` componentwise. -/
def vsmul (w : ℤ) (v : Vec) : Vec := v.map (fun x => w * x)

/-- Componentwise sum of two vectors of equal length. -/
def vadd (x y : Vec) : Vec := List.zipWith (fun a b => a + b) x y

/-- A libadjoint `Variable`: a named logical quantity at a version
(the spec's §3 `(name, version)` key; timestep/iteration collapsed into
one monotone counter as only one timestep appears in these claims). -/
structure Var where
  name : ℕ
  version : ℕ
deriving DecidableEq

/-- A UFL coefficient appearing in a form.  `hasFunctionSpace` models the
`hasattr(coeff, "function_space")` tests of the source; `space` models the
function space it lives on. -/
structure Coefficient where
  ident : ℕ
  hasFunctionSpace : Bool
  space : ℕ
deriving DecidableEq

/-- A UFL form, structurally: its arity, an identifier for the symbolic
expression tree, the coefficients it references, and any coefficient
substitutions installed by `dolfin.replace`.  Coefficient *values* live
outside the form (they are mutable external objects), matching UFL. -/
structure Form where
  rank : ℕ
  structural : ℕ
  coefficients : List Coefficient
  substitutions : List (Coefficient × Vec)
deriving DecidableEq

/-- `ufl.algorithms.extract_coefficients`. -/
def extract_coefficients (f : Form) : List Coefficient := f.coefficients

/-- The global dictionary of expression parameters
(`expressions.expression_attrs` in the source): expression id ↦ value. -/
abbrev Env := List (ℕ × ℤ)

/-- Association-list lookup on ℕ keys. -/
def alookup : List (ℕ × ℕ) → ℕ → Option ℕ
  | [], _ => none
  | (k, v) :: rest, key => if k = key then some v else alookup rest key

/-- Association-list update on ℕ keys (replace or prepend). -/
def aset (l : List (ℕ × ℕ)) (key v : ℕ) : List (ℕ × ℕ) :=
  (key, v) :: l.filter (fun kv => kv.1 ≠ key)

/-- Modelled from the spec, §4.1 (the `solving.adj_variables` registry is
not in the snapshot): `current(name)` returns the most recently allocated
version for `name` without incrementing; an unseen name is at version 0. -/
def adj_var_current (vars : List (ℕ × ℕ)) (name : ℕ) : Var :=
  ⟨name, (alookup vars name).getD 0⟩

/-- Modelled from the spec, §4.1: `next(name)` allocates the next version
for `name`, incrementing the stored counter; monotonic per name. -/
def adj_vars_next (vars : List (ℕ × ℕ)) (name : ℕ) : Var × List (ℕ × ℕ) :=
  let n := ((alookup vars name).getD 0) + 1
  (⟨name, n⟩, aset vars name n)

/-- Modelled from the spec, §4.1 (`adj_variables.forget`): erase the
tracking state for a name.  (The source only calls it on names whose
latest version is not yet known to the tape.) -/
def adj_vars_forget (vars : List (ℕ × ℕ)) (name : ℕ) : List (ℕ × ℕ) :=
  vars.filter (fun kv => kv.1 ≠ name)

namespace MatrixFreeM

/- ---------------------------------------------------------------------
   matrix_free.py
   --------------------------------------------------------------------- -/

/-- A user-supplied matrix-free linear operator: the `mult` and
`transpmult` PETSc shell actions, and the `derivative_action` method
(cf. `AdjointKrylovMatrix.derivative_action`, whose arguments are the
dependency value being differentiated against, the contraction vector,
the hermitian flag, the input vector and a scalar coefficient). -/
structure Op where
  mult : Vec → Vec
  transpmult : Vec → Vec
  derivative_action : Vec → Vec → Bool → Vec → ℤ → Vec

/-- The live operator object: its current state (`current_form` in
`AdjointKrylovMatrix`) plus its `set_dependencies` method, which rebuilds
the operator from fresh dependency values
(`self.current_form = dolfin.replace(self.original_form, replace_dict)`). -/
structure AOp where
  current : Op
  set_deps : List Vec → Op

/-- `A.set_dependencies(dependencies, values)` — replace the operator's
dependency values (matrix_free.py, `AdjointKrylovMatrix.set_dependencies`). -/
def set_dependencies (A : AOp) (dependencies : List Var) (values : List Vec) : AOp :=
  { A with current := A.set_deps values }

/-- A Dirichlet boundary condition: it pins the dof at `index` to
`value` when applied to a vector. -/
structure DirichletBC where
  index : ℕ
  value : ℤ
deriving DecidableEq

/-- `bc.apply(rhs)`. -/
def DirichletBC.apply (bc : DirichletBC) (v : Vec) : Vec := v.set bc.index bc.value

/-- `dolfin.homogenize(bc)`: the same boundary condition with zero value. -/
def homogenize (bc : DirichletBC) : DirichletBC := { bc with value := 0 }

/-- `for bc in bcs: bc.apply(rhs)`. -/
def applyBCs (bcs : List DirichletBC) (v : Vec) : Vec :=
  bcs.foldl (fun w bc => bc.apply w) v

/-- A Krylov-iteration backend (`dolfin.PETScKrylovSolver(...).solve`):
given the operator's `mult` action and a right-hand side it produces the
iterate it converged to.  It is an external collaborator (spec §6): the
adapter never looks inside it, and in particular never forms or applies
an explicit inverse of the operator. -/
abbrev Krylov := (Vec → Vec) → Vec → Vec

/-- The `MatrixFree` matrix of matrix_free.py: a `solving.Matrix` whose
data is a matrix-free operator, with boundary conditions and solver
parameters attached. -/
structure MatrixFree where
  data : Op
  bcs : List DirichletBC
  solver_parameters : ℕ
  fn_space : ℕ

/-- `MatrixFree.solve` (matrix_free.py lines 29–37): assemble the
right-hand side (the assembled vector is the argument `b` here; dolfin
assembly of `b.data` is external), apply the attached boundary
conditions, and run the Krylov iteration on the wrapped operator. -/
def MatrixFree.solve (krylov : Krylov) (m : MatrixFree) (b : Vec) : Vec :=
  let rhs := applyBCs m.bcs b
  krylov m.data.mult rhs

/-- Modelled from the spec, §4.5 step 1 (`expressions.freeze_dict` is not
in the snapshot): freeze the current values of the expression parameters
into a snapshot (a copy of the dictionary). -/
def freeze_dict (env : Env) : Env := env

/-- Modelled from the spec, §4.5 steps 1–2 (`expressions.update_expressions`
is not in the snapshot): restore a frozen snapshot into the global
expression-parameter dictionary. -/
def update_expressions (frozen : Env) (env : Env) : Env := frozen

/-- Errors raised by the annotated matrix-free solve path. -/
inductive SolveErr
  /-- `LibadjointErrorInvalidInputs`: the operator has no `.transpmult`
  method (matrix_free.py lines 50–54) — the spec's
  `ContractError("missing transpose")` configuration error. -/
  | missingTranspmult
  /-- `x` was not produced by `down_cast(my_function.vector())`. -/
  | xNotDownCast
  /-- `b` has no `.form` attribute. -/
  | bMissingForm
  /-- the `assert hasattr(A, "set_dependencies")` of line 71 failed. -/
  | assertNeedSetDependencies
  /-- the assert of the assembly callback (`assert coefficient == 1`). -/
  | assertCoefficient
  /-- registering an equation whose target is already known (spec §4.3). -/
  | targetKnown
deriving DecidableEq

/-- `diag_assembly_cb` (matrix_free.py lines 84–103), the libadjoint
block-assembly callback of the registered equation: it asserts the
coefficient is 1, restores the frozen expression snapshot, pushes the
dependency values into the operator, and returns a `MatrixFree` matrix —
wrapping, in the hermitian case, a copy of `A` with `mult` and
`transpmult` swapped and with homogenized Dirichlet boundary conditions.
The callback's output also carries the global expression dictionary it
left behind. -/
def diag_assembly_cb (A : AOp) (b_bcs : List DirichletBC) (x_fn_space : ℕ)
    (self_solver_parameters : ℕ) (frozen_expressions_dict : Env)
    (dependencies : List Var) (values : List Vec) (hermitian : Bool)
    (coefficient : ℤ) (context : Unit) (env : Env) :
    Except SolveErr ((MatrixFree × ℕ) × Env) :=
  if coefficient ≠ 1 then .error .assertCoefficient
  else
    let env := update_expressions frozen_expressions_dict env
    let A := if 0 < dependencies.length then set_dependencies A dependencies values else A
    if hermitian then
      let A_transpose : Op :=
        { mult := A.current.transpmult
          transpmult := A.current.mult
          derivative_action := A.current.derivative_action }
      let adjoint_bcs := b_bcs.map homogenize
      .ok ((⟨A_transpose, adjoint_bcs, self_solver_parameters, x_fn_space⟩, x_fn_space), env)
    else
      .ok ((⟨A.current, b_bcs, self_solver_parameters, x_fn_space⟩, x_fn_space), env)

/-- The nonlinear-dependency `derivative_action` callback
(matrix_free.py lines 106–112): restore the frozen snapshot, push the
dependency values into the operator, and delegate to the operator's own
`derivative_action`.  `dependencies.index(variable)` raises if the
variable is not a dependency, hence the `Option`. -/
def mf_derivative_action (A : AOp) (frozen_expressions_dict : Env)
    (dependencies : List Var) (values : List Vec) (variable_ : Var)
    (contraction_vector : Vec) (hermitian : Bool) (input : Vec)
    (coefficient : ℤ) (context : Unit) (env : Env) : Option (Vec × Env) :=
  let env := update_expressions frozen_expressions_dict env
  let A := set_dependencies A dependencies values
  match dependencies.indexOf? variable_ with
  | none => none
  | some i =>
      match values[i]? with
      | none => none
      | some value =>
          some (A.current.derivative_action value contraction_vector hermitian input coefficient, env)

/-- One registered tape equation of the matrix-free path: its target
variable, its declared nonlinear dependencies, the dependencies of the
right-hand-side block, and the expression snapshot frozen at
registration.  Initial-condition equations registered by
`register_initial_conditions` carry the `isInitialCondition` flag. -/
structure MEquation where
  target : Var
  deps : List Var
  rhs_deps : List Var
  frozen : Env
  isInitialCondition : Bool
deriving DecidableEq

/-- The global annotation state touched by the matrix-free path: the
variable registry, the set of known variables, the tape, the storage
records, the expression-parameter dictionary and a count of forward
Krylov solves actually executed. -/
structure AdjState where
  adj_variables : List (ℕ × ℕ)
  known : List Var
  equations : List MEquation
  records : List (Var × Vec)
  env : Env
  forwardSolves : ℕ
deriving DecidableEq

/-- Modelled from the spec, §3/§6 (`solving.register_initial_conditions`
is not in the snapshot): for every (coefficient, variable) pair whose
variable the tape does not know yet, register an initial-condition
equation for it and mark it known. -/
def register_initial_conditions (st : AdjState) (pairs : List (Coefficient × Var)) : AdjState :=
  pairs.foldl
    (fun s p =>
      if p.2 ∈ s.known then s
      else
        { s with
          equations := s.equations ++ [⟨p.2, [], [], s.env, true⟩]
          known := s.known ++ [p.2] })
    st

/-- Modelled from the spec, §4.3 (`adjointer.register_equation` is not in
the snapshot): append the equation and mark its target known; the target
must not already be known. -/
def register_equation (st : AdjState) (e : MEquation) : Option AdjState :=
  if e.target ∈ st.known then none
  else some { st with equations := st.equations ++ [e], known := st.known ++ [e.target] }

/-- Modelled from the spec, §6 (`adjointer.record_variable` with a
`MemoryStorage` is not in the snapshot): put the value into the
in-memory keyed store. -/
def record_variable (st : AdjState) (var : Var) (value : Vec) : AdjState :=
  { st with records := st.records ++ [(var, value)] }

/-- Modelled from the spec, §4.4 (`solving.do_checkpoint` is not in the
snapshot): consult the checkpoint policy for the fresh handle.  Under the
default policy of these claims no additional value is retained, so the
state is returned unchanged. -/
def do_checkpoint (st : AdjState) (var : Var) : AdjState := st

/-- The `x` argument of `AdjointPETScKrylovSolver.solve`: a down-cast
PETSc vector; `has_function` models `hasattr(x, 'function')`. -/
structure XObj where
  has_function : Bool
  function_name : ℕ
  fn_space : ℕ
deriving DecidableEq

/-- The `b` argument: `has_form` models `hasattr(b, 'form')`; `form` is
the annotated form it was assembled from, `bcs` its boundary conditions
and `vec` the assembled right-hand-side vector. -/
structure BObj where
  has_form : Bool
  form : Form
  bcs : List DirichletBC
  vec : Vec
deriving DecidableEq

/-- The operator argument of `AdjointPETScKrylovSolver.solve`, as the
Python duck-typed object: the live operator, plus the `hasattr` facts the
source tests (`transpmult`, `dependencies`, `set_dependencies`).  When
`dependenciesMethod` is `some ds`, `A.dependencies()` returns `ds`. -/
structure AObj where
  op : AOp
  has_transpmult : Bool
  dependenciesMethod : Option (List Coefficient)
  has_set_dependencies : Bool

/-- `AdjointPETScKrylovSolver.solve` (matrix_free.py lines 47–124).  On
error the raised exception carries the global state as it stood at the
raise (Python state mutated so far).  On success it returns the new
state and the solution vector written into `x`. -/
def adjointKrylovSolve (krylov : Krylov) (record_all : Bool) (st : AdjState)
    (A : AObj) (x : XObj) (b : BObj) (annotate : Bool) :
    Except (SolveErr × AdjState) (AdjState × Vec) :=
  if annotate then
    if A.has_transpmult = false then .error (.missingTranspmult, st)
    else if x.has_function = false then .error (.xNotDownCast, st)
    else if b.has_form = false then .error (.bMissingForm, st)
    else
      -- `hasattr(A, 'dependencies')` false means no nonlinear dependencies
      let coeffs : List Coefficient :=
        (A.dependenciesMethod.getD []).filter (fun c => c.hasFunctionSpace)
      let dependencies := coeffs.map (fun c => adj_var_current st.adj_variables c.ident)
      if 0 < dependencies.length ∧ A.has_set_dependencies = false then
        .error (.assertNeedSetDependencies, st)
      else
        let rhs_coeffs := (extract_coefficients b.form).filter (fun c => c.hasFunctionSpace)
        let rhs_deps := rhs_coeffs.map (fun c => adj_var_current st.adj_variables c.ident)
        let st :=
          register_initial_conditions st (rhs_coeffs.zip rhs_deps ++ coeffs.zip dependencies)
        let next := adj_vars_next st.adj_variables x.function_name
        let var := next.1
        let st := { st with adj_variables := next.2 }
        let frozen_expressions_dict := freeze_dict st.env
        let eqn : MEquation := ⟨var, dependencies, rhs_deps, frozen_expressions_dict, false⟩
        match register_equation st eqn with
        | none => .error (.targetKnown, st)
        | some st =>
            let st := do_checkpoint st var
            let out := krylov A.op.current.mult b.vec
            let st := { st with forwardSolves := st.forwardSolves + 1 }
            let st := if record_all then record_variable st var out else st
            .ok (st, out)
  else
    let out := krylov A.op.current.mult b.vec
    .ok ({ st with forwardSolves := st.forwardSolves + 1 }, out)

end MatrixFreeM

namespace Functional

/- ---------------------------------------------------------------------
   functional.py
   --------------------------------------------------------------------- -/

/-- `dolfin.replace(form, dict(zip(deps, values)))`: install coefficient
substitutions on a form. -/
def dolfin_replace (f : Form) (repl : List (Coefficient × Vec)) : Form :=
  { f with substitutions := repl }

/-- An external assembler (`dolfin.assemble` on a rank-0 form): an
external collaborator producing the scalar value of a functional form. -/
abbrev Assembler := Form → ℤ

/-- `FinalFunctional` (functional.py lines 8–52): a libadjoint
functional evaluating a form at the final timestep.  `activated` starts
`False` in `__init__`. -/
structure FinalFunctional where
  form : Form
  activated : Bool
deriving DecidableEq

/-- `FinalFunctional.__call__` (lines 18–24): assemble the form with the
dependency values substituted for its function-space coefficients. -/
def FinalFunctional.call (self : FinalFunctional) (assembleF : Assembler)
    (dependencies : List Var) (values : List Vec) : ℤ :=
  let dolfin_dependencies :=
    (extract_coefficients self.form).filter (fun dep => dep.hasFunctionSpace)
  let dolfin_values := values
  assembleF (dolfin_replace self.form (dolfin_dependencies.zip dolfin_values))

/-- `FinalFunctional.dependencies` (functional.py lines 40–48): on the
first call it returns the variables of the form's function-space
coefficients and sets `activated`; afterwards it returns the empty list.
The mutated object is returned alongside the result (Python mutates
`self` in place); `adj_vars` models the global `solving.adj_variables`
registry. -/
def FinalFunctional.dependencies (self : FinalFunctional)
    (adj_vars : List (ℕ × ℕ)) (adjointer : ℕ) (timestep : ℤ) :
    List Var × FinalFunctional :=
  if self.activated = false then
    (((extract_coefficients self.form).filter (fun coeff => coeff.hasFunctionSpace)).map
        (fun coeff => adj_var_current adj_vars coeff.ident),
     { self with activated := true })
  else
    ([], self)

/-- The Python names that are bound, in the body of
`TimeFunctional.__call__`, to a list of coefficients at the point where
line 72 executes.  (The method's other bindings — `self`, `timestep`,
`dependencies`, `values`, `dolfin_values` and the module globals — are
not of that type and cannot be what the name on line 72 denotes.) -/
inductive PyName
  | dolfin_dependencies
  | dolfin_dependencies_form
deriving DecidableEq

/-- A Python runtime error. -/
inductive PyErr
  /-- `NameError`: the name is not bound in any enclosing scope. -/
  | nameError (n : PyName)
deriving DecidableEq

/-- Name resolution in the local scope, as Python performs it at line 72. -/
def resolveName : List (PyName × List Coefficient) → PyName → Option (List Coefficient)
  | [], _ => none
  | (k, v) :: rest, n => if k = n then some v else resolveName rest n

/-- `TimeFunctional` (functional.py lines 55–98). -/
structure TimeFunctional where
  form : Form
deriving DecidableEq

/-- `TimeFunctional.__call__` (functional.py lines 66–72).  Line 68 binds
`dolfin_dependencies_form`; line 72 then evaluates the *name*
`dolfin_dependencies`, which is bound neither in the method body nor at
module scope, so Python raises `NameError` before `dolfin.replace` or
`dolfin.assemble` can run. -/
def TimeFunctional.call (self : TimeFunctional) (assembleF : Assembler)
    (timestep : ℤ) (dependencies : List Var) (values : List Vec) :
    Except PyErr ℤ :=
  let dolfin_dependencies_form :=
    (extract_coefficients self.form).filter (fun dep => dep.hasFunctionSpace)
  let dolfin_values := values
  let scope : List (PyName × List Coefficient) :=
    [(PyName.dolfin_dependencies_form, dolfin_dependencies_form)]
  match resolveName scope PyName.dolfin_dependencies with
  | some dolfin_dependencies =>
      .ok (assembleF (dolfin_replace self.form (dolfin_dependencies.zip dolfin_values)))
  | none => .error (PyErr.nameError PyName.dolfin_dependencies)

/-- `TimeFunctional.derivative` builds, for comparison, the same
substituted form but through the *correctly spelled* local
`dolfin_dependencies_form` (functional.py lines 74–85): the sibling
method shows the intended reading of `__call__`. -/
def TimeFunctional.substitutedForm (self : TimeFunctional) (values : List Vec) : Form :=
  let dolfin_dependencies_form :=
    (extract_coefficients self.form).filter (fun dep => dep.hasFunctionSpace)
  let dolfin_values := values
  dolfin_replace self.form (dolfin_dependencies_form.zip dolfin_values)

end Functional

namespace FunctionM

/- ---------------------------------------------------------------------
   dolfin_adjoint/function.py
   --------------------------------------------------------------------- -/

/-- A dolfin `Function` object: its Python object identity, its name in
the variable registry, its function space and its current dof vector. -/
structure PyFunction where
  ident : ℕ
  name : ℕ
  space : ℕ
  value : Vec
deriving DecidableEq

/-- The fragment of the UFL expression algebra that
`dolfin_adjoint_assign` inspects: Functions, scalar literals
(`ufl.constantvalue.ScalarValue`), sums, products and divisions.
(Tensor indexing, `ComponentTensor` and rank-1 `Constant`s are outside
the claims and not modelled.) -/
inductive UflExpr
  | func (f : PyFunction)
  | scalar (q : ℤ)
  | sum (a b : UflExpr)
  | prod (a b : UflExpr)
  | div (a b : UflExpr)
deriving DecidableEq

/-- Pointwise evaluation of an assignable UFL expression, as the dolfin
backend `Function.assign` computes it.  `none` models the backend
raising (non-conforming shapes, division by zero, or an expression the
backend cannot assign). -/
def UflExpr.eval : UflExpr → Option Vec
  | .func f => some f.value
  | .scalar _ => none
  | .sum a b =>
      match a.eval, b.eval with
      | some x, some y => if x.length = y.length then some (vadd x y) else none
      | _, _ => none
  | .prod (.scalar q) e => e.eval.map (fun v => vsmul q v)
  | .prod e (.scalar q) => e.eval.map (fun v => vsmul q v)
  | .prod _ _ => none
  | .div e (.scalar q) =>
      if q = 0 then none else e.eval.map (fun v => v.map (fun x => x / q))
  | .div _ _ => none

/-- `_check_and_extract_functions` together with
`_check_mul_and_division` (function.py lines 219–254 and 286–357): walk
a linear combination collecting `(Function, scalar weight)` pairs in
left-to-right order.  The source splits this into two mutually recursive
helpers, the second of which peels one scalar factor off a `Product`
(taking the first scalar operand, as the source's scan does) or a
`Division` and dispatches on the remaining operand; here that
scalar-peeling step is inlined into the recursion, which computes the
same result: a product with no scalar operand, a division by a
non-scalar or by zero, and a bare scalar all model `_assign_error()` (or
the `ZeroDivisionError`) as `none`. -/
def _check_and_extract_functions : FunctionM.UflExpr → ℤ →
    Option (List (FunctionM.PyFunction × ℤ))
  | .func f, scalar_weight => some [(f, scalar_weight)]
  | .sum a b, scalar_weight =>
      match _check_and_extract_functions a scalar_weight,
            _check_and_extract_functions b scalar_weight with
      | some l1, some l2 => some (l1 ++ l2)
      | _, _ => none
  | .prod (.scalar q) e, scalar_weight =>
      _check_and_extract_functions e (scalar_weight * q)
  | .prod e (.scalar q), scalar_weight =>
      _check_and_extract_functions e (scalar_weight * q)
  | .div e (.scalar q), scalar_weight =>
      if q = 0 then none else _check_and_extract_functions e (scalar_weight / q)
  | _, _ => none

/-- `weights[ind] += weight` on a weight list. -/
def updateWeightAt : List ℤ → ℕ → ℤ → List ℤ
  | [], _, _ => []
  | w :: ws, 0, q => (w + q) :: ws
  | w :: ws, n + 1, q => w :: updateWeightAt ws n q

/-- The duplicate-merging loop of `_check_and_contract_linear_comb`
(function.py lines 265–275): `funcs.index(func)` finds an
already-present Function by object identity and accumulates its weight;
otherwise the pair is appended. -/
def contractMerge : List (PyFunction × ℤ) → List PyFunction → List ℤ →
    List PyFunction × List ℤ
  | [], funcs, weights => (funcs, weights)
  | (func, weight) :: rest, funcs, weights =>
      match funcs.findIdx? (fun g => g.ident = func.ident) with
      | some ind => contractMerge rest funcs (updateWeightAt weights ind weight)
      | none => contractMerge rest (funcs ++ [func]) (weights ++ [weight])

/-- The self-on-the-right-hand-side defence of
`_check_and_contract_linear_comb` (function.py lines 277–283): the first
occurrence of `self` among the extracted Functions is replaced by a deep
copy (a fresh object carrying the same current value); `fresh` supplies
the new object's identity. -/
def replaceSelfCopy : List PyFunction → PyFunction → ℕ → List PyFunction × ℕ
  | [], _, fresh => ([], fresh)
  | f :: rest, self, fresh =>
      if f.ident = self.ident then
        ({ self with ident := fresh, name := fresh } :: rest, fresh + 1)
      else
        let r := replaceSelfCopy rest self fresh
        (f :: r.1, r.2)

/-- `_check_and_contract_linear_comb` (function.py lines 256–284):
extract the linear combination, check every Function lives in the
function space of the first, merge duplicates, and copy `self` out of
the right-hand side. -/
def _check_and_contract_linear_comb (expr : UflExpr) (self : PyFunction)
    (fresh : ℕ) : Option (List (PyFunction × ℤ) × ℕ) :=
  match _check_and_extract_functions expr 1 with
  | none => none
  | some linear_comb =>
      match linear_comb with
      | [] => some ([], fresh)
      | (f0, _) :: _ =>
          let funcspace := f0.space
          if linear_comb.all (fun fw => fw.1.space = funcspace) then
            let fw := contractMerge linear_comb [] []
            let fs := replaceSelfCopy fw.1 self fresh
            some (fs.1.zip fw.2, fs.2)
          else none

/-- `LinComRHS` (function.py lines 362–432): the right-hand-side block
registered for an annotated linear-combination assignment. -/
structure LinComRHS where
  fn_space : ℕ
  functions : List PyFunction
  weights : List ℤ
  deps : List Var
deriving DecidableEq

/-- `LinComRHS.__init__`: record functions, weights and the current
registry variables of the functions. -/
def mkLinComRHS (adj_vars : List (ℕ × ℕ)) (functions : List PyFunction)
    (weights : List ℤ) (fn_space : ℕ) : LinComRHS :=
  ⟨fn_space, functions, weights,
   functions.map (fun f => adj_var_current adj_vars f.name)⟩

/-- `LinComRHS.__call__` (lines 369–376): evaluate
`sum(weight * value for ...)` with `agh[0]` as the start value — the
empty dependency list would make `agh[0]` raise, hence the `Option`. -/
def LinComRHS.call (self : LinComRHS) (dependencies : List Var)
    (values : List Vec) : Option Vec :=
  match (self.weights.zip values).map (fun wv => vsmul wv.1 wv.2) with
  | [] => none
  | a :: rest => some (rest.foldl (fun acc x => vadd acc x) a)

/-- `LinComRHS.derivative_action` (lines 378–420).  `symmetric_bcs`
models `backend.parameters["adjoint"]["symmetric_bcs"]` (on a backend
newer than 1.2.0); `lusolve` is the external cached mass-matrix LU solve
used by the Riesz-representation branch.  In the default branch the
result is `weights[idx] * contraction_vector`, with
`idx = dependencies.index(variable)` (which raises when the variable is
not a dependency, hence the `Option`; ditto an out-of-range index). -/
def LinComRHS.derivative_action (self : LinComRHS) (symmetric_bcs : Bool)
    (lusolve : ℕ → Vec → Vec) (dependencies : List Var) (values : List Vec)
    (variable_ : Var) (contraction_vector : Vec) (hermitian : Bool) :
    Option Vec :=
  match dependencies.indexOf? variable_ with
  | none => none
  | some idx =>
      match self.weights[idx]? with
      | none => none
      | some w =>
          if symmetric_bcs then
            some (lusolve self.fn_space (vsmul w contraction_vector))
          else
            some (vsmul w contraction_vector)

/-- `LinComRHS.second_derivative_action` (lines 422–423): always `None`
— a hard zero for the Hessian action along this block. -/
def LinComRHS.second_derivative_action (self : LinComRHS) : Option Vec := none

end FunctionM

namespace FunctionM

/-- One registered tape equation of the assignment path: the target
variable, the block's dependencies, and — for the linear-combination
equation itself — the registered `LinComRHS` (initial-condition
equations registered by `register_initial_conditions` carry `none`).
The block of the equation is the identity block of
`utils.get_identity_block(fn_space)`. -/
structure AEquation where
  target : Var
  deps : List Var
  rhs : Option LinComRHS
deriving DecidableEq

/-- The global annotation state touched by `dolfin_adjoint_assign`: the
`adjglobals.adj_variables` registry, the set of variables the adjointer
knows, the tape, the storage records, and a supply of fresh Python
object identities for deep copies. -/
structure FnState where
  adj_variables : List (ℕ × ℕ)
  known : List Var
  equations : List AEquation
  records : List (Var × Vec)
  fresh : ℕ
deriving DecidableEq

/-- Modelled from the spec, §2/§6 (`utils.to_annotate` is not in the
snapshot): annotation is on unless the caller disabled it or annotation
is globally stopped. -/
def to_annotate (annotate : Option Bool) (stop_annotating : Bool) : Bool :=
  (annotate.getD true) && !stop_annotating

/-- Modelled from the spec, §3/§6 (`solving.register_initial_conditions`
is not in the snapshot): register an initial-condition equation for
every pair whose variable the tape does not know yet. -/
def register_initial_conditions (st : FnState)
    (pairs : List (PyFunction × Var)) : FnState :=
  pairs.foldl
    (fun s p =>
      if p.2 ∈ s.known then s
      else
        { s with
          equations := s.equations ++ [⟨p.2, [], none⟩]
          known := s.known ++ [p.2] })
    st

/-- `isinstance(e, backend.Function)`. -/
def isinstance_function : UflExpr → Bool
  | .func _ => true
  | _ => false

/-- `self is other`: Python object identity of the right-hand side with
the assignment target (function.py line 27). -/
def is_same_object (self : PyFunction) : UflExpr → Bool
  | .func f => f.ident == self.ident
  | _ => false

/-- The function-space comparison of function.py lines 49–51:
`str(self.function_space()) != str(other.function_space())`, tested only
when both sides have a function space (a `ufl.algebra.Sum`/`Product`
does not). -/
def spaces_differ (self : PyFunction) : UflExpr → Bool
  | .func f => decide (self.space ≠ f.space)
  | _ => false

/-- Errors raised by `dolfin_adjoint_assign`. -/
inductive AssignErr
  /-- `_assign_error()` — the `assert False` of the extraction helpers. -/
  | assignError
  /-- `annotate=True` was forced with a right-hand side that is not a
  `Function` and not a linear combination: the source's
  `zip(*lincom)` / registry lookups fail downstream on such input. -/
  | nonFunctionInsist
  /-- the backend `dolfin_assign` itself raised. -/
  | evalError
  /-- registering an equation whose target is already known (spec §4.3). -/
  | targetKnown
deriving DecidableEq

/-- The un-annotated backend assignment (`dolfin_assign(self, other)`,
the saved `backend.Function.assign`): write the evaluated right-hand
side into `self`, touching no annotation state. -/
def plain_dolfin_assign (st : FnState) (other : UflExpr) :
    Except AssignErr (FnState × Vec) :=
  match other.eval with
  | some v => .ok (st, v)
  | none => .error .evalError

/-- Lines 35–42 of function.py: a `Sum` or `Product` right-hand side is
contracted to a weighted list of Functions (with `_assign_error`
propagating); any other right-hand side becomes `[(other, 1.0)]` — the
pair list is empty here when `other` is not a `Function`, standing for
the source's tuple holding a non-Function. -/
def lincomOf (other : UflExpr) (self : PyFunction) (fresh : ℕ) :
    Except AssignErr (List (PyFunction × ℤ) × ℕ) :=
  match other with
  | .sum a b =>
      match _check_and_contract_linear_comb (.sum a b) self fresh with
      | some r => .ok r
      | none => .error .assignError
  | .prod a b =>
      match _check_and_contract_linear_comb (.prod a b) self fresh with
      | some r => .ok r
      | none => .error .assignError
  | .func f => .ok ([(f, 1)], fresh)
  | _ => .ok ([], fresh)

/-- `dolfin_adjoint_assign` (function.py lines 21–90).  `record_all`
models `backend.parameters["adjoint"]["record_all"]`; the returned
vector is the value held by `self` after the call. -/
def dolfin_adjoint_assign (record_all stop_annotating : Bool)
    (st : FnState) (self : PyFunction) (other : UflExpr)
    (annotate : Option Bool) : Except AssignErr (FnState × Vec) :=
  -- lines 27–28: `if self is other: return` — a silent no-op
  if is_same_object self other then .ok (st, self.value)
  else
    -- lines 30–33: if we should not annotate, just assign
    if to_annotate annotate stop_annotating = false then
      plain_dolfin_assign st other
    else
      -- lines 35–42
      match lincomOf other self st.fresh with
      | .error e => .error e
      | .ok (lincom, fresh) =>
          let st := { st with fresh := fresh }
          -- lines 44–46: ignore anything not a Function, unless the user insists
          if isinstance_function other = false ∧ annotate ≠ some true then
            plain_dolfin_assign st other
          -- lines 48–51: ignore interpolations between different spaces
          else if spaces_differ self other = true then
            plain_dolfin_assign st other
          else
            -- line 54: `functions, weights = zip(*lincom)`
            let functions := lincom.map (fun fw => fw.1)
            let weights := lincom.map (fun fw => fw.2)
            if functions = [] then .error .nonFunctionInsist
            else
              -- lines 56–58
              let self_var := adj_var_current st.adj_variables self.name
              let function_vars :=
                functions.map (fun f => adj_var_current st.adj_variables f.name)
              -- lines 63–68: ignore functions we have not seen before
              if (function_vars.any (fun fv => decide (fv ∉ st.known))) = true ∧
                  self_var ∉ st.known ∧ annotate ≠ some true then
                let st :=
                  { st with
                    adj_variables :=
                      adj_vars_forget
                        (functions.foldl (fun av f => adj_vars_forget av f.name)
                          st.adj_variables)
                        self.name }
                plain_dolfin_assign st other
              else
                -- lines 71–72
                let st :=
                  if self_var ∈ st.known then st
                  else { st with adj_variables := adj_vars_forget st.adj_variables self.name }
                -- line 74: the backend assignment happens here
                match other.eval with
                | none => .error .evalError
                | some out =>
                    -- lines 76–78
                    let fn_space := self.space
                    let next := adj_vars_next st.adj_variables self.name
                    let dep := next.1
                    let st := { st with adj_variables := next.2 }
                    -- lines 80–81: record the freshly assigned value
                    let st :=
                      if record_all then { st with records := st.records ++ [(dep, out)] }
                      else st
                    -- lines 83–86
                    let rhs := mkLinComRHS st.adj_variables functions weights fn_space
                    let st := register_initial_conditions st (functions.zip rhs.deps)
                    if dep ∈ st.known then .error .targetKnown
                    else
                      let st :=
                        { st with
                          equations := st.equations ++ [⟨dep, rhs.deps, some rhs⟩]
                          known := st.known ++ [dep] }
                      .ok (st, out)

end FunctionM

namespace Caches

/- ---------------------------------------------------------------------
   timestepping/python/timestepping/caches.py  (AssemblyCache)
   --------------------------------------------------------------------- -/

/-- Form-compiler / solver parameters: a key–value dictionary. -/
abbrev Params := List (ℕ × ℤ)

/-- Python `dict.copy()` followed by `dict.update(upd)`: entries of
`upd` win, remaining entries of `base` are kept. -/
def dictUpdate (base upd : Params) : Params :=
  upd ++ base.filter (fun kv => (upd.find? (fun kv2 => kv2.1 = kv.1)).isNone)

/-- Insertion sort by key, ascending. -/
def insertByKey (kv : ℕ × ℤ) : Params → Params
  | [] => [kv]
  | kv2 :: rest => if kv.1 ≤ kv2.1 then kv :: kv2 :: rest else kv2 :: insertByKey kv rest

/-- `parameters_key` (caches.py lines 78–92): a canonical hashable key —
the parameter items in sorted key order. -/
def parameters_key (parameters : Params) : Params :=
  parameters.foldr insertByKey []

/-- `expand` (fenics_utils.py lines 303–311): UFL canonicalization
(expand derivatives, compounds, indices) — external symbolic algebra
acting on the structural form representation; it rewrites the expression
tree and keeps the referenced coefficients, here the identity on the
structural `Form` record. -/
def expand (form : Form) : Form := form

/-- `form_key` (caches.py lines 49–60), in the `static = True` shape
used by `AssemblyCache.assemble`: the expanded (canonical) form. -/
def form_key (form : Form) : Form := expand form

/-- `bc_key` (caches.py lines 62–76): `None` for no boundary conditions,
else the tuple of the bc objects plus the two application flags.  BC
objects are compared by identity, so they are carried as identifiers. -/
def bc_key (bcs : List ℕ) (symmetric_bcs : Bool) (zero_columns : Bool) :
    Option (List ℕ × Bool × Bool) :=
  if bcs = [] then none else some (bcs, symmetric_bcs, zero_columns)

/-- `form_rank` (fenics_utils.py lines 85–93): the number of arguments
of the form. -/
def form_rank (form : Form) : ℕ := form.rank

/-- The key of one `AssemblyCache` entry. -/
abbrev AKey := Form × Params × Option (List ℕ × Bool × Bool)

/-- An assembled tensor (vector or matrix), flattened. -/
abbrev Mat := List ℤ

/-- The values of the mutable coefficient objects at assembly time:
these live *outside* the form, so mutating them does not change any
`AKey`. -/
abbrev CoeffEnv := ℕ → ℤ

/-- The external assembly/boundary-condition backend consumed by the
cache (spec §6): plain assembly, in-place bc application, and the
symmetric assembly variant. -/
structure Backend where
  assembleF : CoeffEnv → Form → Params → Mat
  apply_bcs : Mat → List ℕ → Bool → Mat
  assemble_symmetric_bcs : CoeffEnv → Form → List ℕ → Params → Mat

/-- Python dict lookup on the cache. -/
def cacheLookup : List (AKey × Mat) → AKey → Option Mat
  | [], _ => none
  | (k, v) :: rest, key => if k = key then some v else cacheLookup rest key

/-- `self.__cache[key] = v` for a key not yet present. -/
def cacheInsert (c : List (AKey × Mat)) (key : AKey) (v : Mat) : List (AKey × Mat) :=
  (key, v) :: c

/-- `AssemblyCache` (caches.py lines 94–197): a dictionary from
`(form key, parameters key, bc key)` to assembled tensors. -/
structure AssemblyCache where
  cache : List (AKey × Mat)
deriving DecidableEq

/-- `InvalidArgumentException`s of `AssemblyCache.assemble`. -/
inductive CacheErr
  /-- boundary conditions supplied with a form that is not rank 2. -/
  | rankNot2
deriving DecidableEq

/-- `AssemblyCache.assemble` (caches.py lines 108–161).  The result also
reports whether an assembly was actually performed (`true`) or the
cached tensor was returned (`false`); `global_fcp` models the ambient
`dolfin.parameters["form_compiler"]` defaults merged in at lines
134–136. -/
def AssemblyCache.assemble (bk : Backend) (env : CoeffEnv) (self : AssemblyCache)
    (form : Form) (global_fcp : Params) (form_compiler_parameters : Params)
    (bcs : List ℕ) (symmetric_bcs : Bool) (zero_columns : Bool) :
    Except CacheErr (Mat × AssemblyCache × Bool) :=
  let fcp := dictUpdate global_fcp form_compiler_parameters
  let key : AKey := (form_key form, parameters_key fcp, bc_key bcs symmetric_bcs zero_columns)
  if bcs = [] then
    match cacheLookup self.cache key with
    | some v => .ok (v, self, false)
    | none =>
        let v := bk.assembleF env form fcp
        .ok (v, ⟨cacheInsert self.cache key v⟩, true)
  else
    if form_rank form ≠ 2 then .error .rankNot2
    else
      match cacheLookup self.cache key with
      | some v => .ok (v, self, false)
      | none =>
          let mat :=
            if symmetric_bcs ∧ ¬zero_columns then
              bk.assemble_symmetric_bcs env form bcs fcp
            else
              bk.apply_bcs (bk.assembleF env form fcp) bcs symmetric_bcs
          .ok (mat, ⟨cacheInsert self.cache key mat⟩, true)

/-- `AssemblyCache.clear` (caches.py lines 178–197): with no arguments
the cache is emptied; with dependency arguments, exactly the entries
whose (expanded) form references one of the given coefficients are
deleted. -/
def AssemblyCache.clear (self : AssemblyCache) (args : List Coefficient) : AssemblyCache :=
  if args = [] then ⟨[]⟩
  else
    ⟨args.foldl
      (fun entries dep =>
        entries.filter (fun kv => dep ∉ extract_coefficients kv.1.1))
      self.cache⟩

end Caches

/- ---------------------------------------------------------------------
   Claim theorems
   --------------------------------------------------------------------- -/

/-- C9: calling `Function.assign(self, other)` when `other` is the same
object as `self` returns immediately as a no-op: the tape state is
returned unchanged (no equation registered, no variable version
allocated, no record taken) and `self` keeps its value, for every
`annotate` argument and every policy setting. -/
theorem c9_self_assign_is_noop (record_all stop_annotating : Bool)
    (st : FunctionM.FnState) (self : FunctionM.PyFunction)
    (annotate : Option Bool) :
    FunctionM.dolfin_adjoint_assign record_all stop_annotating st self
      (FunctionM.UflExpr.func self) annotate = .ok (st, self.value) := by
  simp [FunctionM.dolfin_adjoint_assign, FunctionM.is_same_object]

/-- C10: `FinalFunctional.dependencies` returns the dependency variables
of its form only on the first call (which sets `activated`); every
subsequent call returns the empty list and leaves the object unchanged,
regardless of the adjointer and timestep arguments. -/
theorem c10_final_functional_dependencies_only_once (f : Form)
    (av1 av2 : List (ℕ × ℕ)) (adjointer1 adjointer2 : ℕ) (t1 t2 : ℤ) :
    ((Functional.FinalFunctional.mk f false).dependencies av1 adjointer1 t1).1 =
      ((extract_coefficients f).filter (fun c => c.hasFunctionSpace)).map
        (fun c => adj_var_current av1 c.ident) ∧
    ((Functional.FinalFunctional.mk f false).dependencies av1 adjointer1 t1).2.activated = true ∧
    (((Functional.FinalFunctional.mk f false).dependencies av1 adjointer1 t1).2.dependencies
        av2 adjointer2 t2) =
      ([], ((Functional.FinalFunctional.mk f false).dependencies av1 adjointer1 t1).2) := by
  simp [Functional.FinalFunctional.dependencies]

/-- C6: `TimeFunctional.__call__` never returns an assembled value: for
every timestep, dependency list and value list (matching or not), it
raises `NameError` because line 72 references the name
`dolfin_dependencies` while line 68 bound `dolfin_dependencies_form`. -/
theorem c6_time_functional_call_always_raises (tf : Functional.TimeFunctional)
    (assembleF : Functional.Assembler) (timestep : ℤ)
    (dependencies : List Var) (values : List Vec) :
    tf.call assembleF timestep dependencies values =
      .error (Functional.PyErr.nameError Functional.PyName.dolfin_dependencies) := by
  simp [Functional.TimeFunctional.call, Functional.resolveName]

/-- C1: for every annotated matrix-free solve, the assembly callback in
the adjoint (`hermitian = true`) direction returns a `MatrixFree` matrix
wrapping a copy of `A` whose `mult` and `transpmult` are swapped, with
homogenized Dirichlet boundary conditions; and `MatrixFree.solve` on
that matrix is exactly one call of the iterative Krylov backend on the
transposed operator action — for *every* Krylov backend, so no explicit
inverse of the operator is ever formed or applied. -/
theorem c1_adjoint_action_is_transposed_krylov_solve
    (A : MatrixFreeM.AOp) (b_bcs : List MatrixFreeM.DirichletBC)
    (x_fn_space sp : ℕ) (frozen : Env) (dependencies : List Var)
    (values : List Vec) (context : Unit) (env : Env) :
    ∃ m : MatrixFreeM.MatrixFree, ∃ envOut : Env,
      MatrixFreeM.diag_assembly_cb A b_bcs x_fn_space sp frozen dependencies
          values true 1 context env = .ok ((m, x_fn_space), envOut) ∧
      m.data.mult =
        (if 0 < dependencies.length then
          MatrixFreeM.set_dependencies A dependencies values else A).current.transpmult ∧
      m.data.transpmult =
        (if 0 < dependencies.length then
          MatrixFreeM.set_dependencies A dependencies values else A).current.mult ∧
      m.bcs = b_bcs.map MatrixFreeM.homogenize ∧
      ∀ (krylov : MatrixFreeM.Krylov) (b : Vec),
        m.solve krylov b =
          krylov
            (if 0 < dependencies.length then
              MatrixFreeM.set_dependencies A dependencies values else A).current.transpmult
            (MatrixFreeM.applyBCs (b_bcs.map MatrixFreeM.homogenize) b) := by
  have h1 : ¬((1 : ℤ) ≠ 1) := by norm_num
  simp only [MatrixFreeM.diag_assembly_cb, if_neg h1, if_true,
    MatrixFreeM.update_expressions]
  exact ⟨_, _, rfl, rfl, rfl, rfl, fun krylov b => rfl⟩

/-- C3: if the operator passed to `AdjointPETScKrylovSolver.solve` with
`annotate = True` has no `transpmult` method, the call raises the
missing-transpose configuration error immediately: the state carried at
the raise is exactly the input state — no equation has been appended,
no variable allocated, no record taken, and the forward solve has not
executed. -/
theorem c3_missing_transpose_fails_at_registration
    (krylov : MatrixFreeM.Krylov) (record_all : Bool)
    (st : MatrixFreeM.AdjState) (A : MatrixFreeM.AObj)
    (x : MatrixFreeM.XObj) (b : MatrixFreeM.BObj)
    (h : A.has_transpmult = false) :
    MatrixFreeM.adjointKrylovSolve krylov record_all st A x b true =
      .error (.missingTranspmult, st) := by
  simp [MatrixFreeM.adjointKrylovSolve, h]

/-- A symmetric operator whose `transpmult` is the same function as its
`mult` (both the identity action), with a trivial derivative action. -/
def symOp : MatrixFreeM.Op :=
  ⟨fun v => v, fun v => v, fun _ _ _ _ _ => []⟩

/-- The corresponding live operator object: `set_dependencies` keeps the
operator unchanged. -/
def symAOp : MatrixFreeM.AOp := ⟨symOp, fun _ => symOp⟩

/-- A Krylov backend that has converged for the identity operator: the
solution of `I x = rhs` is `rhs` itself. -/
def idKrylov : MatrixFreeM.Krylov := fun mult rhs => rhs

/-- A list of boundary conditions all of which are homogeneous. -/
theorem map_homogenize_of_homogeneous (bcs : List MatrixFreeM.DirichletBC)
    (h : ∀ bc ∈ bcs, bc.value = 0) :
    bcs.map MatrixFreeM.homogenize = bcs := by
  induction bcs with
  | nil => rfl
  | cons bc rest ih =>
      have hv : bc.value = 0 := h bc (List.mem_cons_self bc rest)
      have : MatrixFreeM.homogenize bc = bc := by
        cases bc with
        | mk i v => simp [MatrixFreeM.homogenize] at hv ⊢; exact hv.symm
      simp [this, ih (fun b hb => h b (List.mem_cons_of_mem bc hb))]

/-- C4 counterexample: for the symmetric operator `symAOp`
(`transpmult` equal to `mult` bit-for-bit) but a *nonhomogeneous*
Dirichlet boundary condition on the right-hand side, the assembled
adjoint (`hermitian = true`) matrix and forward (`hermitian = false`)
matrix produce different solve results on the same right-hand side: the
adjoint branch homogenizes the boundary conditions while the forward
branch applies them as given. -/
theorem c4_counterexample :
    ∃ mF mT : MatrixFreeM.MatrixFree, ∃ e1 e2 : Env,
      MatrixFreeM.diag_assembly_cb symAOp [⟨0, 1⟩] 0 0 [] [] [] false 1 () [] =
        .ok ((mF, 0), e1) ∧
      MatrixFreeM.diag_assembly_cb symAOp [⟨0, 1⟩] 0 0 [] [] [] true 1 () [] =
        .ok ((mT, 0), e2) ∧
      (∀ v, symOp.transpmult v = symOp.mult v) ∧
      MatrixFreeM.MatrixFree.solve idKrylov mT [0, 0] ≠
        MatrixFreeM.MatrixFree.solve idKrylov mF [0, 0] := by
  refine ⟨_, _, _, _, rfl, rfl, fun v => rfl, ?_⟩
  decide

/-- C4 (amended): for a symmetric operator whose `transpmult` equals its
`mult` bit-for-bit (in its current state and after any
`set_dependencies`), and whose right-hand side carries only
*homogeneous* Dirichlet boundary conditions, the assembled matrix under
`hermitian = true` solves identically to the one under
`hermitian = false`, for every Krylov backend and every right-hand
side. -/
theorem c4_selfadjoint_same_solve_with_homogeneous_bcs
    (A : MatrixFreeM.AOp) (b_bcs : List MatrixFreeM.DirichletBC)
    (x_fn_space sp : ℕ) (frozen : Env) (dependencies : List Var)
    (values : List Vec) (context : Unit) (env : Env)
    (hsym : A.current.transpmult = A.current.mult)
    (hsymd : ∀ vs, (A.set_deps vs).transpmult = (A.set_deps vs).mult)
    (hbcs : ∀ bc ∈ b_bcs, bc.value = 0) :
    ∃ mF mT : MatrixFreeM.MatrixFree, ∃ e1 e2 : Env,
      MatrixFreeM.diag_assembly_cb A b_bcs x_fn_space sp frozen dependencies
          values false 1 context env = .ok ((mF, x_fn_space), e1) ∧
      MatrixFreeM.diag_assembly_cb A b_bcs x_fn_space sp frozen dependencies
          values true 1 context env = .ok ((mT, x_fn_space), e2) ∧
      ∀ (krylov : MatrixFreeM.Krylov) (b : Vec),
        mT.solve krylov b = mF.solve krylov b := by
  have h1 : ¬((1 : ℤ) ≠ 1) := by norm_num
  simp only [MatrixFreeM.diag_assembly_cb, if_neg h1, if_true,
    MatrixFreeM.update_expressions, Bool.false_eq_true, if_false]
  refine ⟨_, _, _, _, rfl, rfl, fun krylov b => ?_⟩
  have hmap := map_homogenize_of_homogeneous b_bcs hbcs
  by_cases hd : 0 < dependencies.length
  · simp only [MatrixFreeM.MatrixFree.solve, if_pos hd, hmap,
      MatrixFreeM.set_dependencies, hsymd]
  · simp only [MatrixFreeM.MatrixFree.solve, if_neg hd, hmap, hsym]

/-- C4 witness: the amended theorem applied at the symmetric identity
operator with one homogeneous boundary condition. -/
theorem c4_selfadjoint_same_solve_witness :
    ∃ mF mT : MatrixFreeM.MatrixFree, ∃ e1 e2 : Env,
      MatrixFreeM.diag_assembly_cb symAOp [⟨0, 0⟩] 0 0 [] [] [] false 1 () [] =
        .ok ((mF, 0), e1) ∧
      MatrixFreeM.diag_assembly_cb symAOp [⟨0, 0⟩] 0 0 [] [] [] true 1 () [] =
        .ok ((mT, 0), e2) ∧
      ∀ (krylov : MatrixFreeM.Krylov) (b : Vec),
        mT.solve krylov b = mF.solve krylov b :=
  c4_selfadjoint_same_solve_with_homogeneous_bcs symAOp [⟨0, 0⟩] 0 0 [] [] []
    () [] rfl (fun vs => rfl) (by decide)

/-- Registering initial conditions never touches the expression
dictionary. -/
theorem register_initial_conditions_env (pairs : List (Coefficient × Var))
    (st : MatrixFreeM.AdjState) :
    (MatrixFreeM.register_initial_conditions st pairs).env = st.env := by
  induction pairs generalizing st with
  | nil => rfl
  | cons p rest ih =>
      simp only [MatrixFreeM.register_initial_conditions, List.foldl_cons]
      by_cases hp : p.2 ∈ st.known
      · simpa [MatrixFreeM.register_initial_conditions, hp] using ih _
      · simpa [MatrixFreeM.register_initial_conditions, hp] using ih _

/-- C5: the expression snapshot frozen at registration governs every
later callback invocation: (1) the assembly callback's result is
independent of the ambient expression dictionary (mutations after
registration are invisible), (2) likewise for the derivative-action
callback, (3) the assembly callback leaves the global dictionary
restored to the frozen snapshot, and (4) on every successful annotated
solve, the equation registered on the tape carries as its snapshot the
expression dictionary as it stood at registration. -/
theorem c5_frozen_snapshot_governs_callbacks :
    (∀ A b_bcs x_fn_space sp frozen deps values herm coeff context env1 env2,
      MatrixFreeM.diag_assembly_cb A b_bcs x_fn_space sp frozen deps values
          herm coeff context env1 =
        MatrixFreeM.diag_assembly_cb A b_bcs x_fn_space sp frozen deps values
          herm coeff context env2) ∧
    (∀ A frozen deps values variable_ cv herm input coeff context env1 env2,
      MatrixFreeM.mf_derivative_action A frozen deps values variable_ cv herm
          input coeff context env1 =
        MatrixFreeM.mf_derivative_action A frozen deps values variable_ cv herm
          input coeff context env2) ∧
    (∀ A b_bcs x_fn_space sp frozen deps values herm coeff context env out envOut,
      MatrixFreeM.diag_assembly_cb A b_bcs x_fn_space sp frozen deps values
          herm coeff context env = .ok (out, envOut) → envOut = frozen) ∧
    (∀ krylov record_all st A x b st2 out,
      MatrixFreeM.adjointKrylovSolve krylov record_all st A x b true =
          .ok (st2, out) →
      ∃ e : MatrixFreeM.MEquation,
        st2.equations.getLast? = some e ∧ e.isInitialCondition = false ∧
          e.frozen = st.env) := by
  refine ⟨fun A b_bcs xs sp frozen deps values herm coeff context env1 env2 => rfl,
    fun A frozen deps values variable_ cv herm input coeff context env1 env2 => rfl,
    ?_, ?_⟩
  · intro A b_bcs xs sp frozen deps values herm coeff context env out envOut h
    unfold MatrixFreeM.diag_assembly_cb at h
    split at h
    · exact absurd h (by simp)
    · simp only [MatrixFreeM.update_expressions] at h
      split at h <;>
        · rw [Except.ok.injEq] at h
          exact (congrArg Prod.snd h).symm
  · intro krylov record_all st A x b st2 out h
    by_cases h1 : A.has_transpmult = false
    · simp [MatrixFreeM.adjointKrylovSolve, h1] at h
    by_cases h2 : x.has_function = false
    · simp [MatrixFreeM.adjointKrylovSolve, h1, h2] at h
    by_cases h3 : b.has_form = false
    · simp [MatrixFreeM.adjointKrylovSolve, h1, h2, h3] at h
    by_cases h4 : 0 < (List.map (fun c => adj_var_current st.adj_variables c.ident)
          ((A.dependenciesMethod.getD []).filter (fun c => c.hasFunctionSpace))).length ∧
        A.has_set_dependencies = false
    · obtain ⟨h4a, h4b⟩ := h4
      rw [List.length_map] at h4a
      simp [MatrixFreeM.adjointKrylovSolve, h1, h2, h3, h4a, h4b] at h
    simp only [MatrixFreeM.adjointKrylovSolve, if_pos rfl, if_neg h1, if_neg h2,
      if_neg h3] at h
    rw [if_neg h4] at h
    split at h
    rotate_right
    · rename_i h5
      exact absurd trivial h5
    split at h
    · exact absurd h (by simp)
    next stN heq =>
      simp only [MatrixFreeM.register_equation] at heq
      split at heq
      · exact absurd heq (by simp)
      · injection heq with heq2
        subst heq2
        simp only [Except.ok.injEq, Prod.mk.injEq] at h
        obtain ⟨h5, h6⟩ := h
        subst h5
        split <;>
          (simp only [MatrixFreeM.record_variable, MatrixFreeM.do_checkpoint,
             List.getLast?_concat]
           exact ⟨_, rfl, rfl, by
             simp [MatrixFreeM.freeze_dict, register_initial_conditions_env]⟩)

/-- The Function `a` of the linear-combination claim (value `[1]`). -/
def aFn : FunctionM.PyFunction := ⟨1, 1, 7, [1]⟩

/-- The Function `b` of the linear-combination claim (value `[2]`). -/
def bFn : FunctionM.PyFunction := ⟨2, 2, 7, [2]⟩

/-- The assignment target `y` of the linear-combination claim. -/
def yFn : FunctionM.PyFunction := ⟨3, 3, 7, [0]⟩

/-- The right-hand side `2*a + 3*b`. -/
def exprAB : FunctionM.UflExpr :=
  .sum (.prod (.scalar 2) (.func aFn)) (.prod (.scalar 3) (.func bFn))

/-- The same linear combination with the operands declared in the other
order, `3*b + 2*a`. -/
def exprBA : FunctionM.UflExpr :=
  .sum (.prod (.scalar 3) (.func bFn)) (.prod (.scalar 2) (.func aFn))

/-- An annotation state in which `a`, `b` and `y` are known at version 0. -/
def st0 : FunctionM.FnState :=
  ⟨[], [⟨1, 0⟩, ⟨2, 0⟩, ⟨3, 0⟩], [], [], 100⟩

/-- The right-hand side registered for `y.assign(2*a + 3*b)`. -/
def rhsAB : FunctionM.LinComRHS := ⟨7, [aFn, bFn], [2, 3], [⟨1, 0⟩, ⟨2, 0⟩]⟩

/-- The right-hand side registered for `y.assign(3*b + 2*a)`. -/
def rhsBA : FunctionM.LinComRHS := ⟨7, [bFn, aFn], [3, 2], [⟨2, 0⟩, ⟨1, 0⟩]⟩

/-- The annotation state after registering `y.assign(2*a + 3*b)` on `st0`. -/
def st2AB : FunctionM.FnState :=
  ⟨[(3, 1)], [⟨1, 0⟩, ⟨2, 0⟩, ⟨3, 0⟩, ⟨3, 1⟩],
   [⟨⟨3, 1⟩, [⟨1, 0⟩, ⟨2, 0⟩], some rhsAB⟩], [], 100⟩

/-- The annotation state after registering `y.assign(3*b + 2*a)` on `st0`. -/
def st2BA : FunctionM.FnState :=
  ⟨[(3, 1)], [⟨1, 0⟩, ⟨2, 0⟩, ⟨3, 0⟩, ⟨3, 1⟩],
   [⟨⟨3, 1⟩, [⟨2, 0⟩, ⟨1, 0⟩], some rhsBA⟩], [], 100⟩

/-- C2: annotating `y.assign(2*a + 3*b)` registers a `LinComRHS` whose
`derivative_action` with respect to `a`'s variable returns `2 * v` for
every contraction vector `v` (with symmetric boundary-condition
application disabled), independently of the supplied dependency values,
of the hermitian flag, of the external LU backend — and of the order in
which `a` and `b` appeared in the linear combination. -/
theorem c2_lincom_derivative_wrt_a_is_two
    (v : Vec) (values : List Vec) (lusolve : ℕ → Vec → Vec) (herm : Bool) :
    (∃ e rhs,
      FunctionM.dolfin_adjoint_assign false false st0 yFn exprAB (some true) =
        .ok (st2AB, vsmul 2 aFn.value |> vadd (vsmul 3 bFn.value) |> id) ∧
      st2AB.equations.getLast? = some e ∧ e.rhs = some rhs ∧
      rhs.derivative_action false lusolve rhs.deps values ⟨1, 0⟩ v herm =
        some (vsmul 2 v)) ∧
    (∃ e rhs,
      FunctionM.dolfin_adjoint_assign false false st0 yFn exprBA (some true) =
        .ok (st2BA, vsmul 3 bFn.value |> vadd (vsmul 2 aFn.value) |> id) ∧
      st2BA.equations.getLast? = some e ∧ e.rhs = some rhs ∧
      rhs.derivative_action false lusolve rhs.deps values ⟨1, 0⟩ v herm =
        some (vsmul 2 v)) := by
  constructor
  · refine ⟨⟨⟨3, 1⟩, [⟨1, 0⟩, ⟨2, 0⟩], some rhsAB⟩, rhsAB, ?_, ?_, ?_, ?_⟩
    · decide
    · decide
    · decide
    · rfl
  · refine ⟨⟨⟨3, 1⟩, [⟨2, 0⟩, ⟨1, 0⟩], some rhsBA⟩, rhsBA, ?_, ?_, ?_, ?_⟩
    · decide
    · decide
    · decide
    · rfl

/-- Looking up the key just inserted returns the inserted tensor. -/
theorem cacheLookup_insert (c : List (Caches.AKey × Caches.Mat))
    (key : Caches.AKey) (v : Caches.Mat) :
    Caches.cacheLookup (Caches.cacheInsert c key v) key = some v := by
  simp [Caches.cacheInsert, Caches.cacheLookup]

/-- C7: the assembly cache is keyed only by the structural form key, the
(merged, canonicalized) form-compiler parameters and the boundary-
condition key — the coefficient-value environment is no part of the key.
Hence (1) after any successful `assemble`, repeating the call with the
same form, parameters and boundary conditions — under an *arbitrarily
changed* coefficient environment — returns the previously cached tensor
with the cache unchanged and performs no assembly; (2) `assemble` never
evicts an entry (removal happens only through an explicit `clear`); and
(3) `clear(dep)` deletes exactly the entries whose (expanded) form has
`dep` among its extracted coefficients. -/
theorem c7_assembly_cache_structural_key (bk : Caches.Backend) :
    (∀ env1 env2 c form gfcp fcp bcs sb zc v c1 d,
      Caches.AssemblyCache.assemble bk env1 c form gfcp fcp bcs sb zc =
          .ok (v, c1, d) →
      Caches.AssemblyCache.assemble bk env2 c1 form gfcp fcp bcs sb zc =
          .ok (v, c1, false)) ∧
    (∀ env c form gfcp fcp bcs sb zc v c1 d,
      Caches.AssemblyCache.assemble bk env c form gfcp fcp bcs sb zc =
          .ok (v, c1, d) →
      ∀ kv ∈ c.cache, kv ∈ c1.cache) ∧
    (∀ c dep, (Caches.AssemblyCache.clear c [dep]).cache =
      c.cache.filter (fun kv => dep ∉ extract_coefficients kv.1.1)) := by
  refine ⟨?_, ?_, ?_⟩
  · intro env1 env2 c form gfcp fcp bcs sb zc v c1 d h
    unfold Caches.AssemblyCache.assemble at h ⊢
    simp only [Caches.form_key] at h ⊢
    split at h
    · rename_i hb
      rw [if_pos hb]
      split at h
      · rename_i v0 hl
        injection h with h2
        simp only [Prod.mk.injEq] at h2
        obtain ⟨rfl, rfl, rfl⟩ := h2
        simp [hl]
      · rename_i hl
        injection h with h2
        simp only [Prod.mk.injEq] at h2
        obtain ⟨rfl, rfl, rfl⟩ := h2
        simp [cacheLookup_insert]
    · rename_i hb
      rw [if_neg hb]
      split at h
      · exact absurd h (by simp)
      · rename_i hr
        rw [if_neg hr]
        split at h
        · rename_i v0 hl
          injection h with h2
          simp only [Prod.mk.injEq] at h2
          obtain ⟨rfl, rfl, rfl⟩ := h2
          simp [hl]
        · rename_i hl
          injection h with h2
          simp only [Prod.mk.injEq] at h2
          obtain ⟨rfl, rfl, rfl⟩ := h2
          simp [cacheLookup_insert]
  · intro env c form gfcp fcp bcs sb zc v c1 d h kv hkv
    unfold Caches.AssemblyCache.assemble at h
    simp only [Caches.form_key] at h
    split at h
    · split at h
      · injection h with h2
        simp only [Prod.mk.injEq] at h2
        obtain ⟨rfl, rfl, rfl⟩ := h2
        exact hkv
      · injection h with h2
        simp only [Prod.mk.injEq] at h2
        obtain ⟨rfl, rfl, rfl⟩ := h2
        exact List.mem_cons_of_mem _ hkv
    · split at h
      · exact absurd h (by simp)
      · split at h
        · injection h with h2
          simp only [Prod.mk.injEq] at h2
          obtain ⟨rfl, rfl, rfl⟩ := h2
          exact hkv
        · injection h with h2
          simp only [Prod.mk.injEq] at h2
          obtain ⟨rfl, rfl, rfl⟩ := h2
          exact List.mem_cons_of_mem _ hkv
  · intro c dep
    simp [Caches.AssemblyCache.clear]

/-- Registering initial conditions never touches the storage records
(matrix-free path). -/
theorem register_initial_conditions_records (pairs : List (Coefficient × Var))
    (st : MatrixFreeM.AdjState) :
    (MatrixFreeM.register_initial_conditions st pairs).records = st.records := by
  induction pairs generalizing st with
  | nil => rfl
  | cons p rest ih =>
      simp only [MatrixFreeM.register_initial_conditions, List.foldl_cons]
      by_cases hp : p.2 ∈ st.known
      · simpa [MatrixFreeM.register_initial_conditions, hp] using ih _
      · simpa [MatrixFreeM.register_initial_conditions, hp] using ih _

/-- Registering initial conditions never touches the storage records
(assignment path). -/
theorem fn_register_initial_conditions_records
    (pairs : List (FunctionM.PyFunction × Var)) (st : FunctionM.FnState) :
    (FunctionM.register_initial_conditions st pairs).records = st.records := by
  induction pairs generalizing st with
  | nil => rfl
  | cons p rest ih =>
      simp only [FunctionM.register_initial_conditions, List.foldl_cons]
      by_cases hp : p.2 ∈ st.known
      · simpa [FunctionM.register_initial_conditions, hp] using ih _
      · simpa [FunctionM.register_initial_conditions, hp] using ih _

/-- C8: under the `record_all` policy, both annotated paths materialize
the newly produced value for the variable they register: on every
successful annotated matrix-free solve the equation appended to the tape
has its target's solution vector in the records, and on every successful
annotated assignment the registered linear-combination equation has its
target's assigned value in the records. -/
theorem c8_record_all_materializes_registered_targets :
    (∀ (krylov : MatrixFreeM.Krylov) st A x b st2 out,
      MatrixFreeM.adjointKrylovSolve krylov true st A x b true = .ok (st2, out) →
      ∃ e : MatrixFreeM.MEquation,
        st2.equations.getLast? = some e ∧ e.isInitialCondition = false ∧
          (e.target, out) ∈ st2.records) ∧
    (∀ st (self f : FunctionM.PyFunction) st2 out,
      self.ident ≠ f.ident → self.space = f.space →
      FunctionM.dolfin_adjoint_assign true false st self
          (FunctionM.UflExpr.func f) (some true) = .ok (st2, out) →
      ∃ e : FunctionM.AEquation,
        st2.equations.getLast? = some e ∧ e.rhs.isSome = true ∧
          (e.target, out) ∈ st2.records) := by
  constructor
  · intro krylov st A x b st2 out h
    by_cases h1 : A.has_transpmult = false
    · simp [MatrixFreeM.adjointKrylovSolve, h1] at h
    by_cases h2 : x.has_function = false
    · simp [MatrixFreeM.adjointKrylovSolve, h1, h2] at h
    by_cases h3 : b.has_form = false
    · simp [MatrixFreeM.adjointKrylovSolve, h1, h2, h3] at h
    by_cases h4 : 0 < (List.map (fun c => adj_var_current st.adj_variables c.ident)
          ((A.dependenciesMethod.getD []).filter (fun c => c.hasFunctionSpace))).length ∧
        A.has_set_dependencies = false
    · obtain ⟨h4a, h4b⟩ := h4
      rw [List.length_map] at h4a
      simp [MatrixFreeM.adjointKrylovSolve, h1, h2, h3, h4a, h4b] at h
    simp only [MatrixFreeM.adjointKrylovSolve, if_pos rfl, if_neg h1, if_neg h2,
      if_neg h3] at h
    rw [if_neg h4] at h
    split at h
    rotate_right
    · rename_i h5
      exact absurd trivial h5
    split at h
    · exact absurd h (by simp)
    next stN heq =>
      simp only [MatrixFreeM.register_equation] at heq
      split at heq
      · exact absurd heq (by simp)
      · injection heq with heq2
        subst heq2
        simp only [Except.ok.injEq, Prod.mk.injEq, if_pos rfl] at h
        obtain ⟨h5, h6⟩ := h
        subst h5
        subst h6
        simp only [MatrixFreeM.record_variable, MatrixFreeM.do_checkpoint]
        refine ⟨_, List.getLast?_concat _, rfl, ?_⟩
        simp
  · intro st self f st2 out hid hsp h
    have hobj : FunctionM.is_same_object self (FunctionM.UflExpr.func f) = false := by
      simp [FunctionM.is_same_object]
      exact fun hcontra => absurd hcontra.symm hid
    have hsd : FunctionM.spaces_differ self (FunctionM.UflExpr.func f) = false := by
      simp [FunctionM.spaces_differ, hsp]
    by_cases hsv : adj_var_current st.adj_variables self.name ∈ st.known
    · by_cases hdep : (adj_vars_next st.adj_variables self.name).1 ∈
          (FunctionM.register_initial_conditions
            { adj_variables := (adj_vars_next st.adj_variables self.name).2,
              known := st.known, equations := st.equations,
              records := st.records ++
                [((adj_vars_next st.adj_variables self.name).1, f.value)],
              fresh := st.fresh }
            ([f].zip (FunctionM.mkLinComRHS
              (adj_vars_next st.adj_variables self.name).2 [f] [1] self.space).deps)).known
      · simp [FunctionM.dolfin_adjoint_assign, hobj, hsd, FunctionM.to_annotate,
          FunctionM.lincomOf, FunctionM.isinstance_function, FunctionM.UflExpr.eval,
          hsv, hdep] at h
      · simp [FunctionM.dolfin_adjoint_assign, hobj, hsd, FunctionM.to_annotate,
          FunctionM.lincomOf, FunctionM.isinstance_function, FunctionM.UflExpr.eval,
          hsv, hdep] at h
        obtain ⟨h2, h3⟩ := h
        subst h2
        subst h3
        refine ⟨_, List.getLast?_concat _, rfl, ?_⟩
        rw [fn_register_initial_conditions_records]
        simp
    · by_cases hdep : (adj_vars_next (adj_vars_forget st.adj_variables self.name)
            self.name).1 ∈
          (FunctionM.register_initial_conditions
            { adj_variables :=
                (adj_vars_next (adj_vars_forget st.adj_variables self.name) self.name).2,
              known := st.known, equations := st.equations,
              records := st.records ++
                [((adj_vars_next (adj_vars_forget st.adj_variables self.name)
                    self.name).1, f.value)],
              fresh := st.fresh }
            ([f].zip (FunctionM.mkLinComRHS
              (adj_vars_next (adj_vars_forget st.adj_variables self.name) self.name).2
              [f] [1] self.space).deps)).known
      · simp [FunctionM.dolfin_adjoint_assign, hobj, hsd, FunctionM.to_annotate,
          FunctionM.lincomOf, FunctionM.isinstance_function, FunctionM.UflExpr.eval,
          hsv, hdep] at h
      · simp [FunctionM.dolfin_adjoint_assign, hobj, hsd, FunctionM.to_annotate,
          FunctionM.lincomOf, FunctionM.isinstance_function, FunctionM.UflExpr.eval,
          hsv, hdep] at h
        obtain ⟨h2, h3⟩ := h
        subst h2
        subst h3
        refine ⟨_, List.getLast?_concat _, rfl, ?_⟩
        rw [fn_register_initial_conditions_records]
        simp

/-- An operator object exposing `transpmult`, `dependencies` and
`set_dependencies`. -/
def mfA : MatrixFreeM.AObj := ⟨symAOp, true, none, true⟩

/-- An operator object *without* a `transpmult` method. -/
def mfANoTranspose : MatrixFreeM.AObj := ⟨symAOp, false, none, true⟩

/-- A down-cast solution vector object for function name 5. -/
def mfX : MatrixFreeM.XObj := ⟨true, 5, 0⟩

/-- An annotated right-hand side with no coefficients and no boundary
conditions, assembled to `[1, 2]`. -/
def mfB : MatrixFreeM.BObj := ⟨true, ⟨1, 0, [], []⟩, [], [1, 2]⟩

/-- An empty tape state with one expression parameter in scope. -/
def mfSt : MatrixFreeM.AdjState := ⟨[], [], [], [], [(9, 3)], 0⟩

/-- C3 witness: the missing-transpose error at a concrete operator,
with the input state carried unchanged at the raise. -/
theorem c3_missing_transpose_witness :
    MatrixFreeM.adjointKrylovSolve idKrylov false mfSt mfANoTranspose mfX mfB true =
      .error (.missingTranspmult, mfSt) :=
  c3_missing_transpose_fails_at_registration idKrylov false mfSt mfANoTranspose
    mfX mfB rfl

/-- C5 witness: the assembly callback restores a concrete frozen
snapshot, and a concrete successful solve registers an equation whose
snapshot is the expression dictionary at registration. -/
theorem c5_frozen_snapshot_witness :
    ([(1, 7)] : Env) = [(1, 7)] ∧
    ∃ e : MatrixFreeM.MEquation,
      (⟨[(5, 1)], [⟨5, 1⟩], [⟨⟨5, 1⟩, [], [], [(9, 3)], false⟩], [], [(9, 3)], 1⟩ :
          MatrixFreeM.AdjState).equations.getLast? = some e ∧
        e.isInitialCondition = false ∧ e.frozen = mfSt.env :=
  ⟨c5_frozen_snapshot_governs_callbacks.2.2.1 symAOp [⟨0, 1⟩] 0 0 [(1, 7)] [] []
      true 1 () [(0, 5)]
      (⟨⟨symOp.transpmult, symOp.mult, symOp.derivative_action⟩, [⟨0, 0⟩], 0, 0⟩, 0)
      [(1, 7)] rfl,
   c5_frozen_snapshot_governs_callbacks.2.2.2 idKrylov false mfSt mfA mfX mfB
      ⟨[(5, 1)], [⟨5, 1⟩], [⟨⟨5, 1⟩, [], [], [(9, 3)], false⟩], [], [(9, 3)], 1⟩
      [1, 2] (by decide)⟩

/-- A concrete external assembly backend for the cache witness. -/
def cBackend : Caches.Backend :=
  ⟨fun env f p => [env 0], fun m bcs sb => m ++ [1], fun env f bcs p => [env 0, 2]⟩

/-- C7 witness: a second `assemble` call under a changed coefficient
environment returns the tensor cached by the first call with the cache
unchanged and no assembly performed, and the pre-existing entry
survives the first call. -/
theorem c7_assembly_cache_witness :
    Caches.AssemblyCache.assemble cBackend (fun _ => 9)
        ⟨[((⟨0, 0, [], []⟩, [], none), [5]), ((⟨1, 1, [], []⟩, [], none), [3])]⟩
        ⟨0, 0, [], []⟩ [] [] [] false false =
      .ok ([5],
        ⟨[((⟨0, 0, [], []⟩, [], none), [5]), ((⟨1, 1, [], []⟩, [], none), [3])]⟩,
        false) ∧
    ((⟨1, 1, [], []⟩, [], none), [3]) ∈
      (⟨[((⟨0, 0, [], []⟩, [], none), [5]), ((⟨1, 1, [], []⟩, [], none), [3])]⟩ :
        Caches.AssemblyCache).cache :=
  ⟨(c7_assembly_cache_structural_key cBackend).1 (fun _ => 5) (fun _ => 9)
      ⟨[((⟨1, 1, [], []⟩, [], none), [3])]⟩ ⟨0, 0, [], []⟩ [] [] [] false false
      [5] ⟨[((⟨0, 0, [], []⟩, [], none), [5]), ((⟨1, 1, [], []⟩, [], none), [3])]⟩
      true (by decide),
   (c7_assembly_cache_structural_key cBackend).2.1 (fun _ => 5)
      ⟨[((⟨1, 1, [], []⟩, [], none), [3])]⟩ ⟨0, 0, [], []⟩ [] [] [] false false
      [5] ⟨[((⟨0, 0, [], []⟩, [], none), [5]), ((⟨1, 1, [], []⟩, [], none), [3])]⟩
      true (by decide) ((⟨1, 1, [], []⟩, [], none), [3]) (by decide)⟩

/-- C8 witness: a concrete matrix-free solve and a concrete annotated
assignment, both under `record_all`, whose registered targets carry
materialized values. -/
theorem c8_record_all_witness :
    (∃ e : MatrixFreeM.MEquation,
      (⟨[(5, 1)], [⟨5, 1⟩], [⟨⟨5, 1⟩, [], [], [(9, 3)], false⟩],
          [(⟨5, 1⟩, [1, 2])], [(9, 3)], 1⟩ :
          MatrixFreeM.AdjState).equations.getLast? = some e ∧
        e.isInitialCondition = false ∧ (e.target, ([1, 2] : Vec)) ∈
          [(⟨5, 1⟩, ([1, 2] : Vec))]) ∧
    ∃ e : FunctionM.AEquation,
      (⟨[(3, 1)], [⟨1, 0⟩, ⟨2, 0⟩, ⟨3, 0⟩, ⟨3, 1⟩],
          [⟨⟨3, 1⟩, [⟨1, 0⟩], some ⟨7, [aFn], [1], [⟨1, 0⟩]⟩⟩],
          [(⟨3, 1⟩, [1])], 100⟩ : FunctionM.FnState).equations.getLast? = some e ∧
        e.rhs.isSome = true ∧ (e.target, ([1] : Vec)) ∈
          [(⟨3, 1⟩, ([1] : Vec))] := by
  constructor
  · have h := c8_record_all_materializes_registered_targets.1 idKrylov mfSt mfA
      mfX mfB
      ⟨[(5, 1)], [⟨5, 1⟩], [⟨⟨5, 1⟩, [], [], [(9, 3)], false⟩],
        [(⟨5, 1⟩, [1, 2])], [(9, 3)], 1⟩ [1, 2] (by decide)
    exact h
  · have h := c8_record_all_materializes_registered_targets.2 st0 yFn aFn
      ⟨[(3, 1)], [⟨1, 0⟩, ⟨2, 0⟩, ⟨3, 0⟩, ⟨3, 1⟩],
        [⟨⟨3, 1⟩, [⟨1, 0⟩], some ⟨7, [aFn], [1], [⟨1, 0⟩]⟩⟩],
        [(⟨3, 1⟩, [1])], 100⟩ [1] (by decide) rfl (by decide)
    exact h
